import Mathlib

/-!
Verification of the MATLAB `arrow::matlab::tabular::proxy::Schema` bridge
(`src/matlab/src/cpp/arrow/matlab/tabular/proxy/schema.cc`).

The file shallowly embeds the adapter: the native columnar-schema library,
the proxy registry (`libmexclass::proxy::ProxyManager`) and the UTF
conversion utilities live outside the provided slice, so they are modelled
from the interfaces the spec describes; the five proxy methods themselves
are translated line by line from `schema.cc`.

Machine integers: `Index` is a signed 32-bit integer and `num_fields` is the
library's signed 32-bit count; both are modelled as `Int` (the only
arithmetic performed, `matlab_index - 1`, is dead on every path where it
could leave the int32 range, so no wrap is applied).  Proxy identifiers are
unsigned 64-bit values modelled as `Nat` (the registry hands out successive
identifiers, far below `2^64`).
-/

namespace ArrowMatlab

/-- UTF-16 code-unit strings as they cross the host boundary. -/
abbrev Utf16 := List UInt16

/-- A native field descriptor.  The adapter only ever observes a field's
name, so the remaining attributes (type, nullability, metadata) are opaque
and omitted. -/
structure Field where
  name : String
deriving DecidableEq, Repr

/-- The immutable native schema: an ordered sequence of fields. -/
structure ArrowSchema where
  fields : List Field
deriving DecidableEq, Repr

namespace ArrowSchema

/-- Modelled from the spec: the columnar-schema library's `num_fields`,
the signed 32-bit count of fields. -/
def num_fields (s : ArrowSchema) : Int := s.fields.length

/-- Modelled from the spec: the columnar-schema library's `field(i)`
(0-based, no bounds check).  The out-of-range case is undefined behaviour in
the native library and is modelled as `none`. -/
def field (s : ArrowSchema) (i : Nat) : Option Field := s.fields[i]?

/-- Modelled from the spec: the columnar-schema library's `field_names()`,
the ordered UTF-8 names. -/
def field_names (s : ArrowSchema) : List String := s.fields.map Field.name

/-- Modelled from the spec: the columnar-schema library's
`GetFieldByName(name)` — returns the field only when the name resolves to
exactly one field, otherwise a null handle (`none`). -/
def GetFieldByName (s : ArrowSchema) (name : String) : Option Field :=
  if s.field_names.count name = 1 then s.fields.find? (fun f => f.name = name) else none

/-- Modelled from the spec: the columnar-schema library's
`CanReferenceFieldsByNames(names)` — true iff every listed name is present
and unambiguous (appears exactly once). -/
def CanReferenceFieldsByNames (s : ArrowSchema) (names : List String) : Bool :=
  names.all (fun n => s.field_names.count n = 1)

end ArrowSchema

/-- Modelled from the spec: the host-side stand-in for a native field
handle produced by the `getFieldBy…` methods. -/
structure FieldProxy where
  field : Field
deriving DecidableEq, Repr

/-- Modelled from the spec: the process-wide proxy registry
(`libmexclass::proxy::ProxyManager`): a map from opaque identifiers to
handles, handing out a fresh identifier on each registration. -/
structure Registry where
  nextId : Nat
  entries : List (Nat × FieldProxy)
deriving DecidableEq, Repr

namespace Registry

/-- Modelled from the spec: `ProxyManager::manageProxy` registers a handle
and yields a fresh opaque identifier. -/
def manageProxy (reg : Registry) (p : FieldProxy) : Nat × Registry :=
  (reg.nextId, ⟨reg.nextId + 1, (reg.nextId, p) :: reg.entries⟩)

/-- Modelled from the spec: `ProxyManager::getProxy` retrieves a handle by
identifier (`none` on a registry miss). -/
def getProxy (reg : Registry) (id : Nat) : Option FieldProxy :=
  (reg.entries.find? (fun e => e.1 = id)).map (fun e => e.2)

/-- The registry's well-formedness: every identifier already handed out is
below the next one, so every new identifier is fresh. -/
def Fresh (reg : Registry) : Prop :=
  ∀ e ∈ reg.entries, e.1 < reg.nextId

instance (reg : Registry) : Decidable reg.Fresh := by
  unfold Fresh; infer_instance

end Registry

/-- One typed value placed in a method's output slot. -/
inductive HostValue where
  | uint64Scalar (v : Nat)
  | int32Scalar (v : Int)
  | stringArray (n : Nat) (vals : List Utf16)
  | stringScalar (v : Utf16)
deriving DecidableEq, Repr

/-- The per-call error record `{id, message}`. -/
structure ErrorRecord where
  id : String
  message : String
deriving DecidableEq, Repr

/-- The per-invocation method-call context after the method returns: the
first output slot and the optional error record (both initially unset; the
translation of each method fills them exactly as the code does). -/
structure Context where
  output : Option HostValue
  err : Option ErrorRecord
deriving DecidableEq, Repr

/-- Exactly one of `outputs[0]` and `error` is set. -/
def Context.exactlyOne (c : Context) : Prop :=
  (c.output.isSome ∧ c.err = none) ∨ (c.output = none ∧ c.err.isSome)

instance (c : Context) : Decidable c.exactlyOne := by
  unfold Context.exactlyOne; infer_instance

/-- Modelled from the spec: the stable error identifier strings declared in
`arrow/matlab/error/error.h` (outside the provided slice); only their
stability and pairwise distinctness matter here. -/
def ARROW_TABULAR_SCHEMA_UNKNOWN_FIELD_NAME : String :=
  "ARROW_TABULAR_SCHEMA_UNKNOWN_FIELD_NAME"

def ARROW_TABULAR_SCHEMA_NUMERIC_FIELD_INDEX_WITH_EMPTY_SCHEMA : String :=
  "ARROW_TABULAR_SCHEMA_NUMERIC_FIELD_INDEX_WITH_EMPTY_SCHEMA"

def ARROW_TABULAR_SCHEMA_INVALID_NUMERIC_FIELD_INDEX : String :=
  "ARROW_TABULAR_SCHEMA_INVALID_NUMERIC_FIELD_INDEX"

def ARROW_TABULAR_SCHEMA_AMBIGUOUS_FIELD_NAME : String :=
  "ARROW_TABULAR_SCHEMA_AMBIGUOUS_FIELD_NAME"

def UNICODE_CONVERSION_ERROR_ID : String :=
  "UNICODE_CONVERSION_ERROR_ID"

/-- `makeEmptySchemaError` from the anonymous namespace of `schema.cc`. -/
def makeEmptySchemaError : ErrorRecord :=
  ⟨ARROW_TABULAR_SCHEMA_NUMERIC_FIELD_INDEX_WITH_EMPTY_SCHEMA,
   "Numeric indexing using the field method is not supported for schemas with no fields."⟩

/-- `makeUnknownFieldNameError` from the anonymous namespace of
`schema.cc` (declared but not reached by any live path). -/
def makeUnknownFieldNameError (name : String) : ErrorRecord :=
  ⟨ARROW_TABULAR_SCHEMA_UNKNOWN_FIELD_NAME,
   "Unknown field name: '" ++ name ++ "'."⟩

/-- The message assembled by the stream in `Schema::getFieldByIndex`. -/
def invalidIndexMessage (matlab_index num_fields : Int) : String :=
  "Invalid field index: " ++ toString matlab_index ++
    ". Field index must be between 1 and the number of fields (" ++
    toString num_fields ++ ")."

/-- The Schema Proxy: holds exactly one reference to an immutable native
schema. -/
structure Schema where
  schema : ArrowSchema
deriving DecidableEq, Repr

namespace Schema

/-- `Schema::unwrap`. -/
def unwrap (s : Schema) : ArrowSchema := s.schema

/-- `Schema::getFieldByIndex`, translated from `schema.cc` lines 80-120.
`matlab_index` is the 1-based int32 read from the input struct.  The
bounds-unchecked native access `schema->field(index)` is modelled by
`ArrowSchema.field`; were it ever out of range the call would be undefined
behaviour, modelled as a context with neither output nor error. -/
def getFieldByIndex (s : Schema) (reg : Registry) (matlab_index : Int) :
    Context × Registry :=
  let index := matlab_index - 1
  let num_fields := s.schema.num_fields
  if num_fields = 0 then
    (⟨none, some makeEmptySchemaError⟩, reg)
  else if matlab_index < 1 ∨ matlab_index > num_fields then
    (⟨none, some ⟨ARROW_TABULAR_SCHEMA_INVALID_NUMERIC_FIELD_INDEX,
                  invalidIndexMessage matlab_index num_fields⟩⟩, reg)
  else
    match s.schema.field index.toNat with
    | some f =>
        let (field_proxy_id, reg') := reg.manageProxy ⟨f⟩
        (⟨some (HostValue.uint64Scalar field_proxy_id), none⟩, reg')
    | none => (⟨none, none⟩, reg)

/-- `Schema::getFieldByName`, translated from `schema.cc` lines 122-141.
`conv16to8` is the UTF conversion utility `arrow::util::UTF16StringToUTF8`
(outside the slice, passed as a parameter; `none` signals conversion
failure).  After `CanReferenceFieldsByNames` passes the code wraps the
result of `GetFieldByName` without a null check; the (unreachable) null
case would construct a proxy around a null handle, modelled as a context
with neither output nor error. -/
def getFieldByName (s : Schema) (reg : Registry)
    (conv16to8 : Utf16 → Option String) (name_utf16 : Utf16) :
    Context × Registry :=
  match conv16to8 name_utf16 with
  | none =>
      (⟨none, some ⟨UNICODE_CONVERSION_ERROR_ID,
                    "UTF-16 to UTF-8 conversion failed"⟩⟩, reg)
  | some name =>
      let names := [name]
      if s.schema.CanReferenceFieldsByNames names then
        match s.schema.GetFieldByName name with
        | some f =>
            let (field_proxy_id, reg') := reg.manageProxy ⟨f⟩
            (⟨some (HostValue.uint64Scalar field_proxy_id), none⟩, reg')
        | none => (⟨none, none⟩, reg)
      else
        (⟨none, some ⟨ARROW_TABULAR_SCHEMA_AMBIGUOUS_FIELD_NAME,
                      "Unable to reference field by name"⟩⟩, reg)

/-- `Schema::getNumFields`, translated from `schema.cc` lines 143-151. -/
def getNumFields (s : Schema) : Context :=
  ⟨some (HostValue.int32Scalar s.schema.num_fields), none⟩

end Schema

/-- The conversion loop of `Schema::getFieldNames`: convert each UTF-8 name
in order, aborting on the first failure (the macro returns from the method,
so nothing after the failing name is converted). -/
def convertNames (conv8to16 : String → Option Utf16) :
    List String → Option (List Utf16)
  | [] => some []
  | n :: rest =>
    match conv8to16 n with
    | none => none
    | some u => (convertNames conv8to16 rest).map (fun us => u :: us)

namespace Schema

/-- `Schema::getFieldNames`, translated from `schema.cc` lines 153-172.
`conv8to16` is `arrow::util::UTF8StringToUTF16` (outside the slice, passed
as a parameter).  On success a `{1, num_fields}` host string array holds
the converted names in order. -/
def getFieldNames (s : Schema) (conv8to16 : String → Option Utf16) : Context :=
  let field_names_utf8 := s.schema.field_names
  let num_fields := s.schema.num_fields.toNat
  match convertNames conv8to16 field_names_utf8 with
  | none =>
      ⟨none, some ⟨UNICODE_CONVERSION_ERROR_ID,
                   "UTF-8 to UTF-16 conversion failed"⟩⟩
  | some field_names_utf16 =>
      ⟨some (HostValue.stringArray num_fields field_names_utf16), none⟩

/-- `Schema::toString`, translated from `schema.cc` lines 174-182.
`str_utf8` is whatever `arrow::Schema::ToString()` rendered (the adapter
does not reformat it); `conv8to16` is the UTF conversion utility. -/
def toStringMethod (s : Schema) (conv8to16 : String → Option Utf16)
    (render : ArrowSchema → String) : Context :=
  let str_utf8 := render s.schema
  match conv8to16 str_utf8 with
  | none =>
      ⟨none, some ⟨UNICODE_CONVERSION_ERROR_ID,
                   "UTF-8 to UTF-16 conversion failed"⟩⟩
  | some str_utf16 => ⟨some (HostValue.stringScalar str_utf16), none⟩

end Schema

/-- The fetch loop of `Schema::make`: for each identifier in order, fetch
the handle from the registry and unwrap the native field (a registry miss
is fatal to the construction and propagates on the registry's own failure
channel, modelled as `none`). -/
def collectFields (reg : Registry) : List Nat → Option (List Field)
  | [] => some []
  | id :: rest =>
    match reg.getProxy id with
    | none => none
    | some p => (collectFields reg rest).map (fun fs => p.field :: fs)

/-- `Schema::make`, translated from `schema.cc` lines 58-74: build the
native schema from the ordered fetched fields and wrap it in a Schema
Proxy. -/
def Schema.make (reg : Registry) (field_proxy_ids : List Nat) : Option Schema :=
  (collectFields reg field_proxy_ids).map (fun fields => ⟨⟨fields⟩⟩)

/-! ### Helper lemmas -/

theorem convertNames_getElem? {conv : String → Option Utf16} :
    ∀ {l : List String} {us : List Utf16}, convertNames conv l = some us →
      ∀ k : Nat, us[k]? = (l[k]?).bind conv := by
  intro l
  induction l with
  | nil =>
      intro us h k
      simp only [convertNames] at h
      cases h
      simp
  | cons n rest ih =>
      intro us h k
      simp only [convertNames] at h
      cases hc : conv n with
      | none => rw [hc] at h; simp at h
      | some u =>
          rw [hc] at h
          cases hr : convertNames conv rest with
          | none => rw [hr] at h; simp at h
          | some us' =>
              rw [hr] at h
              simp only [Option.map_some'] at h
              cases h
              cases k with
              | zero => simpa using hc.symm
              | succ k => simpa using ih hr k

theorem convertNames_length {conv : String → Option Utf16} :
    ∀ {l : List String} {us : List Utf16}, convertNames conv l = some us →
      us.length = l.length := by
  intro l
  induction l with
  | nil => intro us h; simp only [convertNames] at h; cases h; rfl
  | cons n rest ih =>
      intro us h
      simp only [convertNames] at h
      cases hc : conv n with
      | none => rw [hc] at h; simp at h
      | some u =>
          rw [hc] at h
          cases hr : convertNames conv rest with
          | none => rw [hr] at h; simp at h
          | some us' =>
              rw [hr] at h
              simp only [Option.map_some'] at h
              cases h
              simpa using ih hr

theorem convertNames_eq_none_iff {conv : String → Option Utf16} :
    ∀ {l : List String}, convertNames conv l = none ↔ ∃ n ∈ l, conv n = none := by
  intro l
  induction l with
  | nil => simp [convertNames]
  | cons n rest ih =>
      simp only [convertNames]
      cases hc : conv n with
      | none => simp [hc]
      | some u =>
          cases hr : convertNames conv rest with
          | none =>
              constructor
              · intro _
                rcases ih.mp hr with ⟨m, hm, hcm⟩
                exact ⟨m, by simp [hm], hcm⟩
              · intro _; rfl
          | some us' =>
              simp only [Option.map_some']
              constructor
              · intro h; cases h
              · rintro ⟨m, hm, hconv⟩
                simp only [List.mem_cons] at hm
                rcases hm with rfl | hm
                · rw [hc] at hconv; cases hconv
                · have hnone : convertNames conv rest = none := ih.mpr ⟨m, hm, hconv⟩
                  rw [hr] at hnone; cases hnone

theorem collectFields_getElem? {reg : Registry} :
    ∀ {ids : List Nat} {fs : List Field}, collectFields reg ids = some fs →
      ∀ k : Nat, fs[k]? = ((ids[k]?).bind reg.getProxy).map FieldProxy.field := by
  intro ids
  induction ids with
  | nil =>
      intro fs h k
      simp only [collectFields] at h
      cases h
      simp
  | cons id rest ih =>
      intro fs h k
      simp only [collectFields] at h
      cases hg : reg.getProxy id with
      | none => rw [hg] at h; simp at h
      | some p =>
          rw [hg] at h
          cases hr : collectFields reg rest with
          | none => rw [hr] at h; simp at h
          | some fs' =>
              rw [hr] at h
              simp only [Option.map_some'] at h
              cases h
              cases k with
              | zero => simp [hg]
              | succ k => simpa using ih hr k

theorem collectFields_length {reg : Registry} :
    ∀ {ids : List Nat} {fs : List Field}, collectFields reg ids = some fs →
      fs.length = ids.length := by
  intro ids
  induction ids with
  | nil => intro fs h; simp only [collectFields] at h; cases h; rfl
  | cons id rest ih =>
      intro fs h
      simp only [collectFields] at h
      cases hg : reg.getProxy id with
      | none => rw [hg] at h; simp at h
      | some p =>
          rw [hg] at h
          cases hr : collectFields reg rest with
          | none => rw [hr] at h; simp at h
          | some fs' =>
              rw [hr] at h
              simp only [Option.map_some'] at h
              cases h
              simpa using ih hr

/-- When a name resolves to exactly one field, `GetFieldByName` finds it. -/
theorem GetFieldByName_isSome_of_count_one {s : ArrowSchema} {name : String}
    (h : s.field_names.count name = 1) : (s.GetFieldByName name).isSome := by
  have hmem : name ∈ s.field_names := by
    have : 0 < s.field_names.count name := by omega
    exact List.count_pos_iff.mp this
  have hx : ∃ f ∈ s.fields, f.name = name := by
    rcases List.mem_map.mp hmem with ⟨f, hf, hfn⟩
    exact ⟨f, hf, hfn⟩
  have hfind : (s.fields.find? (fun f => f.name = name)).isSome := by
    rw [List.find?_isSome]
    rcases hx with ⟨f, hf, hfn⟩
    exact ⟨f, hf, by simpa using hfn⟩
  simpa [ArrowSchema.GetFieldByName, h] using hfind

/-- In a well-formed registry the next identifier is not yet registered. -/
theorem Registry.getProxy_nextId_eq_none {reg : Registry} (h : reg.Fresh) :
    reg.getProxy reg.nextId = none := by
  unfold Registry.getProxy
  have : reg.entries.find? (fun e => e.1 = reg.nextId) = none := by
    rw [List.find?_eq_none]
    intro e he
    have := h e he
    simp only [decide_eq_true_eq]
    omega
  simp [this]

/-- Registration preserves registry well-formedness. -/
theorem Registry.manageProxy_fresh {reg : Registry} (h : reg.Fresh) (p : FieldProxy) :
    (reg.manageProxy p).2.Fresh := by
  intro e he
  have hent : (reg.manageProxy p).2.entries = (reg.nextId, p) :: reg.entries := rfl
  have hnext : (reg.manageProxy p).2.nextId = reg.nextId + 1 := rfl
  rw [hent, List.mem_cons] at he
  rw [hnext]
  rcases he with rfl | he
  · simp
  · have := h e he; omega

/-- Looking up the identifier just handed out yields the handle just
registered. -/
theorem Registry.getProxy_manageProxy (reg : Registry) (p : FieldProxy) :
    (reg.manageProxy p).2.getProxy (reg.manageProxy p).1 = some p := by
  unfold Registry.manageProxy Registry.getProxy
  simp [List.find?]

/-- The in-range branch of `getFieldByIndex` always finds a field: the
0-based offset is within bounds. -/
theorem field_isSome_of_in_range {s : Schema} {i : Int}
    (h1 : 1 ≤ i) (h2 : i ≤ s.schema.num_fields) :
    (s.schema.field (i - 1).toNat).isSome := by
  have hlt : (i - 1).toNat < s.schema.fields.length := by
    unfold ArrowSchema.num_fields at h2; omega
  unfold ArrowSchema.field
  rw [List.getElem?_eq_getElem hlt]
  rfl

/-- Unfolding of the in-range branch of `getFieldByIndex`. -/
theorem getFieldByIndex_in_range_eq {s : Schema} (reg : Registry) {i : Int}
    (h1 : 1 ≤ i) (h2 : i ≤ s.schema.num_fields) :
    ∃ f : Field, s.schema.field (i - 1).toNat = some f ∧
      s.getFieldByIndex reg i =
        (⟨some (HostValue.uint64Scalar reg.nextId), none⟩,
         ⟨reg.nextId + 1, (reg.nextId, ⟨f⟩) :: reg.entries⟩) := by
  obtain ⟨f, hf⟩ := Option.isSome_iff_exists.mp (field_isSome_of_in_range h1 h2)
  refine ⟨f, hf, ?_⟩
  have hn0 : ¬ s.schema.num_fields = 0 := by omega
  have hrange : ¬ (i < 1 ∨ i > s.schema.num_fields) := by
    push_neg
    exact ⟨h1, h2⟩
  simp only [Schema.getFieldByIndex, if_neg hn0, if_neg hrange, hf]
  rfl

/-- A context holding an output and no error sets exactly one slot. -/
theorem exactlyOne_of_output (v : HostValue) :
    (Context.mk (some v) none).exactlyOne := Or.inl ⟨rfl, rfl⟩

/-- A context holding an error and no output sets exactly one slot. -/
theorem exactlyOne_of_err (e : ErrorRecord) :
    (Context.mk none (some e)).exactlyOne := Or.inr ⟨rfl, rfl⟩

/-- Unfolding of the success branch of `getFieldByName`. -/
theorem getFieldByName_success_eq {s : Schema} (reg : Registry)
    {conv : Utf16 → Option String} {name16 : Utf16} {name8 : String}
    (hconv : conv name16 = some name8)
    (hcount : s.schema.field_names.count name8 = 1) :
    ∃ f : Field, s.schema.GetFieldByName name8 = some f ∧
      s.getFieldByName reg conv name16 =
        (⟨some (HostValue.uint64Scalar reg.nextId), none⟩,
         ⟨reg.nextId + 1, (reg.nextId, ⟨f⟩) :: reg.entries⟩) := by
  have hcan : s.schema.CanReferenceFieldsByNames [name8] = true := by
    simp [ArrowSchema.CanReferenceFieldsByNames, hcount]
  obtain ⟨f, hfind⟩ :=
    Option.isSome_iff_exists.mp (GetFieldByName_isSome_of_count_one hcount)
  refine ⟨f, hfind, ?_⟩
  simp only [Schema.getFieldByName, hconv, hcan, if_true, hfind]
  rfl

/-! ### Claim theorems -/

/-- **C1**: for every schema with `n ≥ 1` fields and every 1-based index
`i` with `1 ≤ i ≤ n`, `getFieldByIndex(i)` succeeds: it retrieves the field
at the 0-based offset `i − 1`, registers a new Field Proxy wrapping it,
emits the fresh identifier as a single uint64 scalar output, and the
retrieved field's name is the `i`-th element of the library's field-name
list — hence, in converted form, the `i`-th element of what
`getFieldNames()` emits whenever the conversion succeeds. -/
theorem getFieldByIndex_in_range_succeeds
    (s : Schema) (reg : Registry) (i : Int)
    (h1 : 1 ≤ i) (h2 : i ≤ s.schema.num_fields) :
    ∃ f : Field,
      s.schema.field (i - 1).toNat = some f ∧
      (s.getFieldByIndex reg i).1 =
        ⟨some (HostValue.uint64Scalar reg.nextId), none⟩ ∧
      (s.getFieldByIndex reg i).2.entries = (reg.nextId, ⟨f⟩) :: reg.entries ∧
      s.schema.field_names[(i - 1).toNat]? = some f.name ∧
      (∀ (conv : String → Option Utf16) (ns : List Utf16),
        convertNames conv s.schema.field_names = some ns →
        ns[(i - 1).toNat]? = conv f.name) := by
  obtain ⟨f, hf, heq⟩ := getFieldByIndex_in_range_eq reg h1 h2
  have hnames : s.schema.field_names[(i - 1).toNat]? = some f.name := by
    unfold ArrowSchema.field_names
    rw [List.getElem?_map]
    unfold ArrowSchema.field at hf
    rw [hf]
    rfl
  refine ⟨f, hf, by rw [heq], by rw [heq], hnames, ?_⟩
  intro conv ns hcn
  rw [convertNames_getElem? hcn, hnames]
  rfl

/-- Witness for C1 at the schema `["a","b","c"]` and index 2. -/
theorem getFieldByIndex_in_range_succeeds_witness :
    ((⟨⟨[⟨"a"⟩, ⟨"b"⟩, ⟨"c"⟩]⟩⟩ : Schema).getFieldByIndex ⟨0, []⟩ 2).1 =
      ⟨some (HostValue.uint64Scalar 0), none⟩ := by
  obtain ⟨f, hf, hout, hrest⟩ :=
    getFieldByIndex_in_range_succeeds ⟨⟨[⟨"a"⟩, ⟨"b"⟩, ⟨"c"⟩]⟩⟩ ⟨0, []⟩ 2
      (by decide) (by decide)
  simpa using hout

/-- **C2**: for every index `i ∉ [1, n]` (including 0 and negatives),
`getFieldByIndex(i)` fails with
`ARROW_TABULAR_SCHEMA_INVALID_NUMERIC_FIELD_INDEX`, unless `n = 0`, in
which case it fails with
`ARROW_TABULAR_SCHEMA_NUMERIC_FIELD_INDEX_WITH_EMPTY_SCHEMA` regardless of
`i`; the empty-schema check comes first and the two error identifiers are
distinct, so the two errors are never co-emitted. -/
theorem getFieldByIndex_out_of_range_errors
    (s : Schema) (reg : Registry) (i : Int) :
    (s.schema.num_fields = 0 →
      (s.getFieldByIndex reg i).1 = ⟨none, some makeEmptySchemaError⟩) ∧
    (s.schema.num_fields ≠ 0 → (i < 1 ∨ i > s.schema.num_fields) →
      (s.getFieldByIndex reg i).1 =
        ⟨none, some ⟨ARROW_TABULAR_SCHEMA_INVALID_NUMERIC_FIELD_INDEX,
                     invalidIndexMessage i s.schema.num_fields⟩⟩) ∧
    makeEmptySchemaError.id ≠ ARROW_TABULAR_SCHEMA_INVALID_NUMERIC_FIELD_INDEX := by
  refine ⟨?_, ?_, by decide⟩
  · intro h0
    simp only [Schema.getFieldByIndex, if_pos h0]
  · intro hn hr
    simp only [Schema.getFieldByIndex, if_neg hn, if_pos hr]

/-- Witness for C2: the empty schema rejects index 5 with the empty-schema
error, and the schema `["a","b","c"]` rejects index 0 with the
invalid-index error. -/
theorem getFieldByIndex_out_of_range_errors_witness :
    ((⟨⟨[]⟩⟩ : Schema).getFieldByIndex ⟨0, []⟩ 5).1 =
      ⟨none, some makeEmptySchemaError⟩ ∧
    ((⟨⟨[⟨"a"⟩, ⟨"b"⟩, ⟨"c"⟩]⟩⟩ : Schema).getFieldByIndex ⟨0, []⟩ 0).1 =
      ⟨none, some ⟨ARROW_TABULAR_SCHEMA_INVALID_NUMERIC_FIELD_INDEX,
                   invalidIndexMessage 0 3⟩⟩ :=
  ⟨(getFieldByIndex_out_of_range_errors ⟨⟨[]⟩⟩ ⟨0, []⟩ 5).1 (by decide),
   (getFieldByIndex_out_of_range_errors ⟨⟨[⟨"a"⟩, ⟨"b"⟩, ⟨"c"⟩]⟩⟩ ⟨0, []⟩ 0).2.1
     (by decide) (by decide)⟩

/-- **C3**: for every schema with `n ≥ 1` fields and out-of-range 1-based
index `i`, the error message of `getFieldByIndex` is exactly the string
`Invalid field index: <i>. Field index must be between 1 and the number of
fields (<n>).`, embedding the 1-based index as received and the field
count. -/
theorem getFieldByIndex_error_message_exact
    (s : Schema) (reg : Registry) (i : Int)
    (hn : 1 ≤ s.schema.num_fields)
    (hr : i < 1 ∨ i > s.schema.num_fields) :
    (s.getFieldByIndex reg i).1.err =
      some ⟨ARROW_TABULAR_SCHEMA_INVALID_NUMERIC_FIELD_INDEX,
            "Invalid field index: " ++ toString i ++
              ". Field index must be between 1 and the number of fields (" ++
              toString s.schema.num_fields ++ ")."⟩ := by
  have hn0 : ¬ s.schema.num_fields = 0 := by omega
  simp only [Schema.getFieldByIndex, if_neg hn0, if_pos hr]
  rfl

/-- Witness for C3: the schema `["a","b","c"]` rejects index 0 with the
literal message. -/
theorem getFieldByIndex_error_message_exact_witness :
    ((⟨⟨[⟨"a"⟩, ⟨"b"⟩, ⟨"c"⟩]⟩⟩ : Schema).getFieldByIndex ⟨0, []⟩ 0).1.err =
      some ⟨ARROW_TABULAR_SCHEMA_INVALID_NUMERIC_FIELD_INDEX,
            "Invalid field index: 0. Field index must be between 1 and the number of fields (3)."⟩ := by
  have h := getFieldByIndex_error_message_exact ⟨⟨[⟨"a"⟩, ⟨"b"⟩, ⟨"c"⟩]⟩⟩
    ⟨0, []⟩ 0 (by decide) (by decide)
  simpa using h

/-- **C4**: for every name whose UTF-16 to UTF-8 conversion succeeds,
`getFieldByName` succeeds iff the name occurs exactly once among the
library's field names (the list `getFieldNames` converts element-wise);
when it fails for a name reason — absent or ambiguous — the error
identifier is `ARROW_TABULAR_SCHEMA_AMBIGUOUS_FIELD_NAME`, covering both
cases. -/
theorem getFieldByName_succeeds_iff_unique
    (s : Schema) (reg : Registry) (conv : Utf16 → Option String)
    (name16 : Utf16) (name8 : String)
    (hconv : conv name16 = some name8) :
    ((∃ id, (s.getFieldByName reg conv name16).1 =
        ⟨some (HostValue.uint64Scalar id), none⟩) ↔
      s.schema.field_names.count name8 = 1) ∧
    (s.schema.field_names.count name8 ≠ 1 →
      ∃ msg, (s.getFieldByName reg conv name16).1 =
        ⟨none, some ⟨ARROW_TABULAR_SCHEMA_AMBIGUOUS_FIELD_NAME, msg⟩⟩) := by
  by_cases hcount : s.schema.field_names.count name8 = 1
  · have hcan : s.schema.CanReferenceFieldsByNames [name8] = true := by
      simp [ArrowSchema.CanReferenceFieldsByNames, hcount]
    obtain ⟨f, hfind⟩ :=
      Option.isSome_iff_exists.mp (GetFieldByName_isSome_of_count_one hcount)
    refine ⟨⟨fun _ => hcount, fun _ => ⟨reg.nextId, ?_⟩⟩, fun hc => absurd hcount hc⟩
    simp only [Schema.getFieldByName, hconv, hcan, if_true, hfind]
    rfl
  · have hcan : s.schema.CanReferenceFieldsByNames [name8] = false := by
      simp [ArrowSchema.CanReferenceFieldsByNames, hcount]
    have herr : (s.getFieldByName reg conv name16).1 =
        ⟨none, some ⟨ARROW_TABULAR_SCHEMA_AMBIGUOUS_FIELD_NAME,
                     "Unable to reference field by name"⟩⟩ := by
      simp only [Schema.getFieldByName, hconv, hcan, Bool.false_eq_true,
        if_false]
    refine ⟨⟨fun hex => ?_, fun h => absurd h hcount⟩, fun _ => ⟨_, herr⟩⟩
    obtain ⟨id, hid⟩ := hex
    rw [herr] at hid
    cases hid

/-- Witness for C4 at the schema `["x","y"]`: looking up `"y"` succeeds and
looking up `"z"` fails with the ambiguous-name identifier. -/
theorem getFieldByName_succeeds_iff_unique_witness :
    (∃ id, ((⟨⟨[⟨"x"⟩, ⟨"y"⟩]⟩⟩ : Schema).getFieldByName ⟨0, []⟩
        (fun _ => some "y") []).1 = ⟨some (HostValue.uint64Scalar id), none⟩) ∧
    (∃ msg, ((⟨⟨[⟨"x"⟩, ⟨"y"⟩]⟩⟩ : Schema).getFieldByName ⟨0, []⟩
        (fun _ => some "z") []).1 =
      ⟨none, some ⟨ARROW_TABULAR_SCHEMA_AMBIGUOUS_FIELD_NAME, msg⟩⟩) :=
  ⟨(getFieldByName_succeeds_iff_unique ⟨⟨[⟨"x"⟩, ⟨"y"⟩]⟩⟩ ⟨0, []⟩
      (fun _ => some "y") [] "y" rfl).1.mpr (by decide),
   (getFieldByName_succeeds_iff_unique ⟨⟨[⟨"x"⟩, ⟨"y"⟩]⟩⟩ ⟨0, []⟩
      (fun _ => some "z") [] "z" rfl).2 (by decide)⟩

/-- **C5**: for every sequence of field-proxy identifiers that the registry
resolves, `make` builds the schema from the fetched fields in the same
order, the empty sequence yields a valid schema with `n = 0`, and
`getNumFields` on the resulting Schema Proxy equals the length of the
identifier sequence. -/
theorem make_preserves_order_and_count
    (reg : Registry) (ids : List Nat) (fs : List Field)
    (h : collectFields reg ids = some fs) :
    Schema.make reg ids = some ⟨⟨fs⟩⟩ ∧
    fs.length = ids.length ∧
    (Schema.mk ⟨fs⟩).getNumFields =
      ⟨some (HostValue.int32Scalar (ids.length : Int)), none⟩ ∧
    (∀ k : Nat, fs[k]? = ((ids[k]?).bind reg.getProxy).map FieldProxy.field) ∧
    (ids = [] → Schema.make reg ids = some ⟨⟨[]⟩⟩) := by
  have hlen := collectFields_length h
  refine ⟨?_, hlen, ?_, collectFields_getElem? h, ?_⟩
  · simp [Schema.make, h]
  · simp [Schema.getNumFields, ArrowSchema.num_fields, hlen]
  · intro hnil
    subst hnil
    simp only [collectFields] at h
    cases h
    rfl

/-- Witness for C5 at a registry holding fields `"x"` (id 0) and `"y"`
(id 1), constructing from `[1, 0]`. -/
theorem make_preserves_order_and_count_witness :
    Schema.make ⟨2, [(0, ⟨⟨"x"⟩⟩), (1, ⟨⟨"y"⟩⟩)]⟩ [1, 0] =
      some ⟨⟨[⟨"y"⟩, ⟨"x"⟩]⟩⟩ ∧
    (Schema.mk ⟨[⟨"y"⟩, ⟨"x"⟩]⟩).getNumFields =
      ⟨some (HostValue.int32Scalar 2), none⟩ := by
  have h := make_preserves_order_and_count ⟨2, [(0, ⟨⟨"x"⟩⟩), (1, ⟨⟨"y"⟩⟩)]⟩
    [1, 0] [⟨"y"⟩, ⟨"x"⟩] (by decide)
  exact ⟨h.1, h.2.2.1⟩

/-- **C6**: `getFieldNames` converts each field name in construction order;
if any name fails conversion it reports `UNICODE_CONVERSION_ERROR_ID` with
no output at all, and on success it emits a `1×n` host string array of the
converted names in order whose length equals the field count, including a
`1×0` array for the empty schema. -/
theorem getFieldNames_spec
    (s : Schema) (conv : String → Option Utf16) :
    (∀ ns, convertNames conv s.schema.field_names = some ns →
      s.getFieldNames conv =
        ⟨some (HostValue.stringArray s.schema.num_fields.toNat ns), none⟩ ∧
      ns.length = s.schema.num_fields.toNat ∧
      (∀ k : Nat, ns[k]? = (s.schema.field_names[k]?).bind conv)) ∧
    ((∃ n ∈ s.schema.field_names, conv n = none) →
      (s.getFieldNames conv).output = none ∧
      ∃ e, (s.getFieldNames conv).err = some e ∧
        e.id = UNICODE_CONVERSION_ERROR_ID) ∧
    (s.schema.fields = [] →
      s.getFieldNames conv = ⟨some (HostValue.stringArray 0 []), none⟩) := by
  refine ⟨?_, ?_, ?_⟩
  · intro ns hns
    refine ⟨by simp only [Schema.getFieldNames, hns], ?_,
      convertNames_getElem? hns⟩
    have h1 := convertNames_length hns
    have h2 : s.schema.field_names.length = s.schema.fields.length := by
      simp [ArrowSchema.field_names]
    have h3 : s.schema.num_fields.toNat = s.schema.fields.length := by
      simp [ArrowSchema.num_fields]
    omega
  · intro hex
    have hnone : convertNames conv s.schema.field_names = none :=
      convertNames_eq_none_iff.mpr hex
    constructor
    · simp only [Schema.getFieldNames, hnone]
    · exact ⟨⟨UNICODE_CONVERSION_ERROR_ID, "UTF-8 to UTF-16 conversion failed"⟩,
        by simp only [Schema.getFieldNames, hnone], rfl⟩
  · intro hnil
    have hfn : s.schema.field_names = [] := by
      simp [ArrowSchema.field_names, hnil]
    have hsome : convertNames conv s.schema.field_names = some [] := by
      rw [hfn]; rfl
    have hn0 : s.schema.num_fields.toNat = 0 := by
      simp [ArrowSchema.num_fields, hnil]
    simp only [Schema.getFieldNames, hsome, hn0]

/-- Witness for C6: the schema `["a","b"]` under a conversion sending each
name to its code units, and under an always-failing conversion; plus the
empty schema. -/
theorem getFieldNames_spec_witness :
    ((⟨⟨[⟨"a"⟩, ⟨"b"⟩]⟩⟩ : Schema).getFieldNames
        (fun str => some (str.data.map (fun ch => ch.val.toUInt16))) =
      ⟨some (HostValue.stringArray 2 [[97], [98]]), none⟩) ∧
    ((⟨⟨[⟨"a"⟩, ⟨"b"⟩]⟩⟩ : Schema).getFieldNames (fun _ => none)).output =
      none ∧
    ((⟨⟨[]⟩⟩ : Schema).getFieldNames (fun _ => none) =
      ⟨some (HostValue.stringArray 0 []), none⟩) := by
  refine ⟨?_, ?_, ?_⟩
  · have h := (getFieldNames_spec ⟨⟨[⟨"a"⟩, ⟨"b"⟩]⟩⟩
      (fun str => some (str.data.map (fun ch => ch.val.toUInt16)))).1
      [[97], [98]] (by decide)
    simpa using h.1
  · exact ((getFieldNames_spec ⟨⟨[⟨"a"⟩, ⟨"b"⟩]⟩⟩ (fun _ => none)).2.1
      ⟨"a", by decide, rfl⟩).1
  · exact (getFieldNames_spec ⟨⟨[]⟩⟩ (fun _ => none)).2.2 rfl

/-- **C7**: every invocation of the five methods sets exactly one of the
output slot and the error record before returning — no partial output
alongside an error, and no third outcome. -/
theorem methods_set_exactly_one_of_output_or_error
    (s : Schema) (reg : Registry) (i : Int) (name16 : Utf16)
    (conv16to8 : Utf16 → Option String) (conv8to16 : String → Option Utf16)
    (render : ArrowSchema → String) :
    (s.getFieldByIndex reg i).1.exactlyOne ∧
    (s.getFieldByName reg conv16to8 name16).1.exactlyOne ∧
    (s.getNumFields).exactlyOne ∧
    (s.getFieldNames conv8to16).exactlyOne ∧
    (s.toStringMethod conv8to16 render).exactlyOne := by
  refine ⟨?_, ?_, ?_, ?_, ?_⟩
  · by_cases h0 : s.schema.num_fields = 0
    · have h : (s.getFieldByIndex reg i).1 = ⟨none, some makeEmptySchemaError⟩ := by
        simp only [Schema.getFieldByIndex, if_pos h0]
      rw [h]; exact exactlyOne_of_err _
    · by_cases hr : i < 1 ∨ i > s.schema.num_fields
      · have h : (s.getFieldByIndex reg i).1 =
            ⟨none, some ⟨ARROW_TABULAR_SCHEMA_INVALID_NUMERIC_FIELD_INDEX,
                         invalidIndexMessage i s.schema.num_fields⟩⟩ := by
          simp only [Schema.getFieldByIndex, if_neg h0, if_pos hr]
        rw [h]; exact exactlyOne_of_err _
      · push_neg at hr
        obtain ⟨f, hf, heq⟩ := getFieldByIndex_in_range_eq reg hr.1 hr.2
        rw [show (s.getFieldByIndex reg i).1 =
              ⟨some (HostValue.uint64Scalar reg.nextId), none⟩ from by rw [heq]]
        exact exactlyOne_of_output _
  · cases hc : conv16to8 name16 with
    | none =>
        have h : (s.getFieldByName reg conv16to8 name16).1 =
            ⟨none, some ⟨UNICODE_CONVERSION_ERROR_ID,
                         "UTF-16 to UTF-8 conversion failed"⟩⟩ := by
          simp only [Schema.getFieldByName, hc]
        rw [h]; exact exactlyOne_of_err _
    | some name8 =>
        by_cases hcount : s.schema.field_names.count name8 = 1
        · obtain ⟨f, hfind, heq⟩ :=
            getFieldByName_success_eq reg hc hcount
          rw [show (s.getFieldByName reg conv16to8 name16).1 =
                ⟨some (HostValue.uint64Scalar reg.nextId), none⟩ from by rw [heq]]
          exact exactlyOne_of_output _
        · have hcan : s.schema.CanReferenceFieldsByNames [name8] = false := by
            simp [ArrowSchema.CanReferenceFieldsByNames, hcount]
          have h : (s.getFieldByName reg conv16to8 name16).1 =
              ⟨none, some ⟨ARROW_TABULAR_SCHEMA_AMBIGUOUS_FIELD_NAME,
                           "Unable to reference field by name"⟩⟩ := by
            simp only [Schema.getFieldByName, hc, hcan, Bool.false_eq_true,
              if_false]
          rw [h]; exact exactlyOne_of_err _
  · exact exactlyOne_of_output _
  · cases hn : convertNames conv8to16 s.schema.field_names with
    | none =>
        have h : s.getFieldNames conv8to16 =
            ⟨none, some ⟨UNICODE_CONVERSION_ERROR_ID,
                         "UTF-8 to UTF-16 conversion failed"⟩⟩ := by
          simp only [Schema.getFieldNames, hn]
        rw [h]; exact exactlyOne_of_err _
    | some ns =>
        have h : s.getFieldNames conv8to16 =
            ⟨some (HostValue.stringArray s.schema.num_fields.toNat ns), none⟩ := by
          simp only [Schema.getFieldNames, hn]
        rw [h]; exact exactlyOne_of_output _
  · cases hs : conv8to16 (render s.schema) with
    | none =>
        have h : s.toStringMethod conv8to16 render =
            ⟨none, some ⟨UNICODE_CONVERSION_ERROR_ID,
                         "UTF-8 to UTF-16 conversion failed"⟩⟩ := by
          simp only [Schema.toStringMethod, hs]
        rw [h]; exact exactlyOne_of_err _
    | some u =>
        have h : s.toStringMethod conv8to16 render =
            ⟨some (HostValue.stringScalar u), none⟩ := by
          simp only [Schema.toStringMethod, hs]
        rw [h]; exact exactlyOne_of_output _

/-- **C8**: every successful `getFieldByIndex` or `getFieldByName` call
registers a fresh entry in the proxy registry and returns its identifier;
two successful calls with identical arguments — the same index, or the
same name, on the same Schema Proxy — yield two distinct identifiers whose
registry entries hold equal field handles (no deduplication). -/
theorem getFieldBy_fresh_distinct_ids
    (s : Schema) (reg : Registry) (i : Int) (conv : Utf16 → Option String)
    (name16 : Utf16) (name8 : String)
    (hfresh : reg.Fresh)
    (h1 : 1 ≤ i) (h2 : i ≤ s.schema.num_fields)
    (hconv : conv name16 = some name8)
    (hcount : s.schema.field_names.count name8 = 1) :
    (∃ id1 reg1 id2 reg2 p1 p2,
      s.getFieldByIndex reg i =
        (⟨some (HostValue.uint64Scalar id1), none⟩, reg1) ∧
      s.getFieldByIndex reg1 i =
        (⟨some (HostValue.uint64Scalar id2), none⟩, reg2) ∧
      id1 ≠ id2 ∧
      reg.getProxy id1 = none ∧
      reg1.getProxy id1 = some p1 ∧
      reg2.getProxy id2 = some p2 ∧
      p1 = p2) ∧
    (∃ id1 reg1 id2 reg2 p1 p2,
      s.getFieldByName reg conv name16 =
        (⟨some (HostValue.uint64Scalar id1), none⟩, reg1) ∧
      s.getFieldByName reg1 conv name16 =
        (⟨some (HostValue.uint64Scalar id2), none⟩, reg2) ∧
      id1 ≠ id2 ∧
      reg.getProxy id1 = none ∧
      reg1.getProxy id1 = some p1 ∧
      reg2.getProxy id2 = some p2 ∧
      p1 = p2) := by
  constructor
  · obtain ⟨f, hf, heq1⟩ := getFieldByIndex_in_range_eq reg h1 h2
    obtain ⟨f', hf', heq2⟩ := getFieldByIndex_in_range_eq
      ⟨reg.nextId + 1, (reg.nextId, ⟨f⟩) :: reg.entries⟩ h1 h2
    have hff : f' = f := by rw [hf] at hf'; cases hf'; rfl
    subst hff
    exact ⟨reg.nextId, ⟨reg.nextId + 1, (reg.nextId, ⟨f'⟩) :: reg.entries⟩,
      reg.nextId + 1,
      ⟨reg.nextId + 2,
        (reg.nextId + 1, ⟨f'⟩) :: (reg.nextId, ⟨f'⟩) :: reg.entries⟩,
      ⟨f'⟩, ⟨f'⟩, heq1, heq2, by omega,
      Registry.getProxy_nextId_eq_none hfresh,
      Registry.getProxy_manageProxy reg ⟨f'⟩,
      Registry.getProxy_manageProxy
        ⟨reg.nextId + 1, (reg.nextId, ⟨f'⟩) :: reg.entries⟩ ⟨f'⟩,
      rfl⟩
  · obtain ⟨f, hfind, heq1⟩ := getFieldByName_success_eq reg hconv hcount
    obtain ⟨f', hfind', heq2⟩ := getFieldByName_success_eq
      ⟨reg.nextId + 1, (reg.nextId, ⟨f⟩) :: reg.entries⟩ hconv hcount
    have hff : f' = f := by rw [hfind] at hfind'; cases hfind'; rfl
    subst hff
    exact ⟨reg.nextId, ⟨reg.nextId + 1, (reg.nextId, ⟨f'⟩) :: reg.entries⟩,
      reg.nextId + 1,
      ⟨reg.nextId + 2,
        (reg.nextId + 1, ⟨f'⟩) :: (reg.nextId, ⟨f'⟩) :: reg.entries⟩,
      ⟨f'⟩, ⟨f'⟩, heq1, heq2, by omega,
      Registry.getProxy_nextId_eq_none hfresh,
      Registry.getProxy_manageProxy reg ⟨f'⟩,
      Registry.getProxy_manageProxy
        ⟨reg.nextId + 1, (reg.nextId, ⟨f'⟩) :: reg.entries⟩ ⟨f'⟩,
      rfl⟩

/-- Witness for C8 at the schema `["x"]`, the empty registry, index 1 and
name `"x"`. -/
theorem getFieldBy_fresh_distinct_ids_witness :
    ∃ id1 reg1 id2 reg2 p1 p2,
      (⟨⟨[⟨"x"⟩]⟩⟩ : Schema).getFieldByIndex ⟨0, []⟩ 1 =
        (⟨some (HostValue.uint64Scalar id1), none⟩, reg1) ∧
      (⟨⟨[⟨"x"⟩]⟩⟩ : Schema).getFieldByIndex reg1 1 =
        (⟨some (HostValue.uint64Scalar id2), none⟩, reg2) ∧
      id1 ≠ id2 ∧
      Registry.getProxy ⟨0, []⟩ id1 = none ∧
      reg1.getProxy id1 = some p1 ∧
      reg2.getProxy id2 = some p2 ∧
      p1 = p2 :=
  (getFieldBy_fresh_distinct_ids ⟨⟨[⟨"x"⟩]⟩⟩ ⟨0, []⟩ 1
    (fun _ => some "x") [] "x" (by decide) (by decide) (by decide)
    rfl (by decide)).1

/-- **C9**: the bounds-unchecked native access in `getFieldByIndex` is
reached only under `1 ≤ matlab_index ≤ num_fields`, where the 0-based
offset `matlab_index − 1` lies within `[0, n − 1]` and the access always
finds a field — the modelled undefined-behaviour outcome (neither output
nor error) is unreachable for every input, and under the precondition the
error branches are not taken. -/
theorem getFieldByIndex_native_access_in_bounds
    (s : Schema) (reg : Registry) (i : Int) :
    ((s.getFieldByIndex reg i).1 ≠ ⟨none, none⟩) ∧
    (1 ≤ i → i ≤ s.schema.num_fields →
      (0 : Int) ≤ i - 1 ∧ (i - 1).toNat < s.schema.fields.length ∧
      (s.schema.field (i - 1).toNat).isSome ∧
      (s.getFieldByIndex reg i).1.err = none) := by
  constructor
  · by_cases h0 : s.schema.num_fields = 0
    · simp only [Schema.getFieldByIndex, if_pos h0]
      intro h
      cases h
    · by_cases hr : i < 1 ∨ i > s.schema.num_fields
      · simp only [Schema.getFieldByIndex, if_neg h0, if_pos hr]
        intro h
        cases h
      · push_neg at hr
        obtain ⟨f, hf, heq⟩ := getFieldByIndex_in_range_eq reg hr.1 hr.2
        rw [show (s.getFieldByIndex reg i).1 =
              ⟨some (HostValue.uint64Scalar reg.nextId), none⟩ from by rw [heq]]
        intro h
        cases h
  · intro h1 h2
    have hlen : (i - 1).toNat < s.schema.fields.length := by
      unfold ArrowSchema.num_fields at h2
      omega
    obtain ⟨f, hf, heq⟩ := getFieldByIndex_in_range_eq reg h1 h2
    exact ⟨by omega, hlen, field_isSome_of_in_range h1 h2, by rw [heq]⟩

/-- Witness for C9 at the schema `["x"]` and index 1. -/
theorem getFieldByIndex_native_access_in_bounds_witness :
    (0 : Int) ≤ 1 - 1 ∧
    ((1 : Int) - 1).toNat < ([⟨"x"⟩] : List Field).length ∧
    ((⟨[⟨"x"⟩]⟩ : ArrowSchema).field ((1 : Int) - 1).toNat).isSome ∧
    ((⟨⟨[⟨"x"⟩]⟩⟩ : Schema).getFieldByIndex ⟨0, []⟩ 1).1.err = none :=
  (getFieldByIndex_native_access_in_bounds ⟨⟨[⟨"x"⟩]⟩⟩ ⟨0, []⟩ 1).2
    (by decide) (by decide)

/-- **C10**: on every error path of `getFieldByIndex` and
`getFieldByName` (empty schema, out-of-range index, conversion failure,
ambiguous or unknown name) the proxy registry is left unchanged — no Field
Proxy is registered by a failed call. -/
theorem failed_calls_leave_registry_unchanged
    (s : Schema) (reg : Registry) (i : Int) (conv : Utf16 → Option String)
    (name16 : Utf16) :
    ((s.getFieldByIndex reg i).1.err.isSome →
      (s.getFieldByIndex reg i).2 = reg) ∧
    ((s.getFieldByName reg conv name16).1.err.isSome →
      (s.getFieldByName reg conv name16).2 = reg) := by
  constructor
  · intro hsome
    by_cases h0 : s.schema.num_fields = 0
    · simp only [Schema.getFieldByIndex, if_pos h0]
    · by_cases hr : i < 1 ∨ i > s.schema.num_fields
      · simp only [Schema.getFieldByIndex, if_neg h0, if_pos hr]
      · push_neg at hr
        obtain ⟨f, hf, heq⟩ := getFieldByIndex_in_range_eq reg hr.1 hr.2
        rw [show (s.getFieldByIndex reg i).1 =
              ⟨some (HostValue.uint64Scalar reg.nextId), none⟩ from by rw [heq]]
          at hsome
        cases hsome
  · intro hsome
    cases hc : conv name16 with
    | none => simp only [Schema.getFieldByName, hc]
    | some name8 =>
        by_cases hcount : s.schema.field_names.count name8 = 1
        · obtain ⟨f, hfind, heq⟩ :=
            getFieldByName_success_eq reg hc hcount
          rw [show (s.getFieldByName reg conv name16).1 =
                ⟨some (HostValue.uint64Scalar reg.nextId), none⟩ from by rw [heq]]
            at hsome
          cases hsome
        · have hcan : s.schema.CanReferenceFieldsByNames [name8] = false := by
            simp [ArrowSchema.CanReferenceFieldsByNames, hcount]
          simp only [Schema.getFieldByName, hc, hcan, Bool.false_eq_true,
            if_false]

/-- Witness for C10: the empty schema rejects index 1 and a failing
conversion aborts `getFieldByName`, both leaving the registry as it was. -/
theorem failed_calls_leave_registry_unchanged_witness :
    ((⟨⟨[]⟩⟩ : Schema).getFieldByIndex ⟨7, [(3, ⟨⟨"q"⟩⟩)]⟩ 1).2 =
      (⟨7, [(3, ⟨⟨"q"⟩⟩)]⟩ : Registry) ∧
    ((⟨⟨[⟨"x"⟩]⟩⟩ : Schema).getFieldByName ⟨7, [(3, ⟨⟨"q"⟩⟩)]⟩
        (fun _ => none) []).2 = (⟨7, [(3, ⟨⟨"q"⟩⟩)]⟩ : Registry) :=
  ⟨(failed_calls_leave_registry_unchanged ⟨⟨[]⟩⟩ ⟨7, [(3, ⟨⟨"q"⟩⟩)]⟩ 1
      (fun _ => none) []).1 (by decide),
   (failed_calls_leave_registry_unchanged ⟨⟨[⟨"x"⟩]⟩⟩ ⟨7, [(3, ⟨⟨"q"⟩⟩)]⟩ 1
      (fun _ => none) []).2 (by decide)⟩

end ArrowMatlab
